import Mathlib

set_option linter.unusedVariables false

namespace Fuzzynote

/-- Event kinds, mirroring the `EventType` constants of the source
(`NullEvent = 0` through `DeleteEvent = 7`). -/
inductive EventType where
  | NullEvent
  | AddEvent
  | UpdateEvent
  | MoveUpEvent
  | MoveDownEvent
  | ShowEvent
  | HideEvent
  | DeleteEvent
deriving DecidableEq, Repr, Inhabited

/-- The `LineFriends` struct of the source. The unexported `emailsMap`
memoisation field is derived data and is dropped. -/
structure LineFriends where
  IsProcessed : Bool := false
  Offset : Int := 0
  Emails : List String := []
deriving DecidableEq, Repr, Inhabited

/-- The current `EventLog` struct of the source (Lamport-clocked event,
schema 6 shape). Go byte slices carry content only up to equality here, so
`Note []byte` becomes `Option String` keeping the nil/non-nil distinction.
The unexported `cachedKey` memoisation field is dropped; `eventKey` below
recomputes what it caches. -/
structure EventLog where
  UUID : Nat := 0
  LamportTimestamp : Int := 0
  EventType : EventType := .NullEvent
  ListItemKey : String := ""
  TargetListItemKey : String := ""
  Line : String := ""
  Note : Option String := none
  Friends : LineFriends := {}
deriving DecidableEq, Repr, Inhabited

/-- `EventLog.key()` of the source:
`strconv.Itoa(int(e.UUID)) + ":" + strconv.Itoa(int(e.LamportTimestamp))`. -/
def eventKey (e : EventLog) : String :=
  toString e.UUID ++ ":" ++ toString e.LamportTimestamp

/-- Return values of `checkEquality` (`eventsEqual`, `leftEventOlder`,
`rightEventOlder`). -/
inductive Comparison where
  | eventsEqual
  | leftEventOlder
  | rightEventOlder
deriving DecidableEq, Repr

/-- `checkEquality` of the source: total order on events by
(LamportTimestamp, UUID). -/
def checkEquality (event1 event2 : EventLog) : Comparison :=
  if event1.LamportTimestamp < event2.LamportTimestamp ∨
      (event1.LamportTimestamp = event2.LamportTimestamp ∧ event1.UUID < event2.UUID) then
    .leftEventOlder
  else if event2.LamportTimestamp < event1.LamportTimestamp ∨
      (event2.LamportTimestamp = event1.LamportTimestamp ∧ event2.UUID < event1.UUID) then
    .rightEventOlder
  else
    .eventsEqual

/-- One append step of `merge`'s loop: Go's
`if len(mergedEl) == 0 || checkEquality(e, lastEvent) != eventsEqual`
duplicate check followed by the append. The accumulator is kept reversed
so that its head is Go's `lastEvent`. -/
def pushEvent (acc : List EventLog) (e : EventLog) : List EventLog :=
  match acc with
  | [] => [e]
  | last :: _ => if checkEquality e last ≠ .eventsEqual then e :: acc else acc

/-- The two-pointer loop of `merge`. The Go loop runs until both indices
are exhausted; `fuel` is a bound on the remaining iterations, and `merge`
passes the total length, which the loop never exceeds. -/
def mergeLoop : Nat → List EventLog → List EventLog → List EventLog → List EventLog
  | 0, acc, _, _ => acc.reverse
  | _ + 1, acc, [], [] => acc.reverse
  | fuel + 1, acc, [], e2 :: t2 => mergeLoop fuel (pushEvent acc e2) [] t2
  | fuel + 1, acc, e1 :: t1, [] => mergeLoop fuel (pushEvent acc e1) t1 []
  | fuel + 1, acc, e1 :: t1, e2 :: t2 =>
      match checkEquality e1 e2 with
      | .leftEventOlder => mergeLoop fuel (pushEvent acc e1) t1 (e2 :: t2)
      | .rightEventOlder => mergeLoop fuel (pushEvent acc e2) (e1 :: t1) t2
      | .eventsEqual => mergeLoop fuel acc t1 (e2 :: t2)

/-- `merge` of the source: duplicate-eliding ordered union of two logs,
with the two concatenation fast paths. -/
def merge (wal1 wal2 : List EventLog) : List EventLog :=
  match wal1, wal2 with
  | [], [] => []
  | [], e2 :: t2 => e2 :: t2
  | e1 :: t1, [] => e1 :: t1
  | e1 :: t1, e2 :: t2 =>
      if checkEquality e1 ((e2 :: t2).getLastD e2) = .rightEventOlder then
        (e2 :: t2) ++ (e1 :: t1)
      else if checkEquality e2 ((e1 :: t1).getLastD e1) = .rightEventOlder then
        (e1 :: t1) ++ (e2 :: t2)
      else
        mergeLoop ((e1 :: t1).length + (e2 :: t2).length) [] (e1 :: t1) (e2 :: t2)

/-- The (Lamport, replica-id) key by which `checkEquality` compares two
events. -/
def ekey (e : EventLog) : Int × Nat := (e.LamportTimestamp, e.UUID)

/-- Strict order on `ekey` values: exactly the `leftEventOlder` condition
of `checkEquality`. -/
def keyLt (a b : Int × Nat) : Prop :=
  a.1 < b.1 ∨ (a.1 = b.1 ∧ a.2 < b.2)

instance (a b : Int × Nat) : Decidable (keyLt a b) := by
  unfold keyLt; infer_instance

/-- Reference merge of two key sequences: the same pairwise decisions as
`merge`'s two-pointer loop (on equal keys the right event is kept),
expressed directly on keys. -/
def kmerge : List (Int × Nat) → List (Int × Nat) → List (Int × Nat)
  | [], l => l
  | a :: l1, [] => a :: l1
  | a :: l1, b :: l2 =>
      if keyLt a b then a :: kmerge l1 (b :: l2)
      else if keyLt b a then b :: kmerge (a :: l1) l2
      else b :: kmerge l1 l2
termination_by l1 l2 => l1.length + l2.length

/-- A log that is sorted with no duplicates: strictly increasing under
`checkEquality`. This is the log invariant of the spec (for all i < j,
log i < log j). -/
def sortedStrict (l : List EventLog) : Prop :=
  List.Chain' (fun a b => checkEquality a b = .leftEventOlder) l

instance instSortedStrictDec : (l : List EventLog) → Decidable (sortedStrict l)
  | [] => isTrue List.chain'_nil
  | [a] => isTrue (List.chain'_singleton a)
  | a :: b :: t =>
    match instSortedStrictDec (b :: t) with
    | isTrue h =>
      if hab : checkEquality a b = .leftEventOlder then
        isTrue (List.chain'_cons.mpr ⟨hab, h⟩)
      else
        isFalse (fun hc => hab (List.chain'_cons.mp hc).1)
    | isFalse h => isFalse (fun hc => h (List.chain'_cons.mp hc).2)

theorem keyLt_trans {a b c : Int × Nat} (h1 : keyLt a b) (h2 : keyLt b c) : keyLt a c := by
  rcases a with ⟨a1, a2⟩; rcases b with ⟨b1, b2⟩; rcases c with ⟨c1, c2⟩
  simp only [keyLt] at *
  omega

theorem keyLt_asymm {a b : Int × Nat} (h : keyLt a b) : ¬ keyLt b a := by
  rcases a with ⟨a1, a2⟩; rcases b with ⟨b1, b2⟩
  simp only [keyLt] at *
  omega

theorem keyLt_irrefl (a : Int × Nat) : ¬ keyLt a a := by
  rcases a with ⟨a1, a2⟩
  simp only [keyLt]
  omega

theorem keyLt_total {a b : Int × Nat} (h1 : ¬ keyLt a b) (h2 : ¬ keyLt b a) : a = b := by
  rcases a with ⟨a1, a2⟩; rcases b with ⟨b1, b2⟩
  simp only [keyLt] at *
  have : a1 = b1 ∧ a2 = b2 := by omega
  simp [this.1, this.2]

theorem checkEquality_left_iff {a b : EventLog} :
    checkEquality a b = .leftEventOlder ↔ keyLt (ekey a) (ekey b) := by
  unfold checkEquality ekey keyLt
  split
  · simpa using by assumption
  · split <;> simp <;> omega

theorem checkEquality_right_iff {a b : EventLog} :
    checkEquality a b = .rightEventOlder ↔ keyLt (ekey b) (ekey a) := by
  unfold checkEquality ekey keyLt
  split
  · rename_i h
    simp only [reduceCtorEq, false_iff]
    omega
  · split <;> rename_i h h' <;> simp <;> omega

theorem checkEquality_equal_iff {a b : EventLog} :
    checkEquality a b = .eventsEqual ↔ ekey a = ekey b := by
  unfold checkEquality ekey
  split <;> rename_i h
  · simp only [reduceCtorEq, false_iff, Prod.mk.injEq, not_and]
    omega
  · split <;> rename_i h'
    · simp only [reduceCtorEq, false_iff, Prod.mk.injEq, not_and]
      omega
    · simp only [true_iff, Prod.mk.injEq]
      omega

theorem kmerge_nil_right : ∀ l : List (Int × Nat), kmerge l [] = l := by
  intro l; cases l <;> simp [kmerge]

theorem kmerge_comm : ∀ l1 l2 : List (Int × Nat), kmerge l1 l2 = kmerge l2 l1 := by
  intro l1
  induction l1 with
  | nil => intro l2; cases l2 <;> simp [kmerge]
  | cons a as ih =>
    intro l2
    induction l2 with
    | nil => simp [kmerge]
    | cons b bs ih2 =>
      by_cases hab : keyLt a b
      · have hba : ¬ keyLt b a := keyLt_asymm hab
        rw [kmerge, kmerge, if_pos hab, if_neg hba, if_pos hab, ih (b :: bs)]
      · by_cases hba : keyLt b a
        · rw [kmerge, kmerge, if_neg hab, if_pos hba, if_pos hba, ih2]
        · have hev : a = b := keyLt_total hab hba
          rw [kmerge, kmerge, if_neg hab, if_neg hba, if_neg hba, if_neg hab, ih bs, hev]

theorem chain_head_lt {a : Int × Nat} {l : List (Int × Nat)}
    (h : List.Chain' keyLt (a :: l)) : ∀ x ∈ l, keyLt a x := by
  induction l generalizing a with
  | nil => simp
  | cons b t ih =>
    rw [List.chain'_cons] at h
    intro x hx
    rcases List.mem_cons.mp hx with rfl | hx2
    · exact h.1
    · exact keyLt_trans h.1 (ih h.2 x hx2)

theorem chain_lt_getLastD {l : List (Int × Nat)} (h : List.Chain' keyLt l) :
    ∀ d, ∀ x ∈ l, keyLt x (l.getLastD d) ∨ x = l.getLastD d := by
  induction l with
  | nil => simp
  | cons a t ih =>
    intro d x hx
    cases t with
    | nil =>
      rcases List.mem_cons.mp hx with rfl | hx2
      · right; rfl
      · simp at hx2
    | cons b t2 =>
      rw [List.chain'_cons] at h
      rw [List.getLastD_cons]
      rcases List.mem_cons.mp hx with rfl | hx2
      · rcases ih h.2 x b (List.mem_cons_self _ _) with hlt | heq
        · exact Or.inl (keyLt_trans h.1 hlt)
        · exact Or.inl (heq ▸ h.1)
      · exact ih h.2 x x hx2

theorem pushEvent_eq_cons {acc : List EventLog} {e : EventLog}
    (h : ∀ l, acc.head? = some l → keyLt (ekey l) (ekey e)) :
    pushEvent acc e = e :: acc := by
  cases acc with
  | nil => rfl
  | cons last rest =>
    have hlt : keyLt (ekey last) (ekey e) := h last rfl
    have hne : checkEquality e last ≠ .eventsEqual := by
      rw [Ne, checkEquality_equal_iff]
      intro heq
      exact keyLt_irrefl _ (heq ▸ hlt)
    simp [pushEvent, hne]

theorem kmerge_cons_right_of_lt {b : Int × Nat} {l1 l2 : List (Int × Nat)}
    (h : ∀ x ∈ l1, keyLt b x) :
    kmerge l1 (b :: l2) = b :: kmerge l1 l2 := by
  cases l1 with
  | nil => simp [kmerge]
  | cons a t =>
    have hba : keyLt b a := h a (List.mem_cons_self _ _)
    have hab : ¬ keyLt a b := keyLt_asymm hba
    rw [kmerge, if_neg hab, if_pos hba]

/-- The central invariant of `merge`'s two-pointer loop: on strictly
sorted inputs all strictly above the accumulator head, the loop appends
exactly the reference key-merge of the two remaining lists. -/
theorem mergeLoop_keys :
    ∀ (fuel : Nat) (A B acc : List EventLog),
      A.length + B.length ≤ fuel →
      List.Chain' keyLt (A.map ekey) →
      List.Chain' keyLt (B.map ekey) →
      (∀ l, acc.head? = some l →
        (∀ x ∈ A, keyLt (ekey l) (ekey x)) ∧ (∀ x ∈ B, keyLt (ekey l) (ekey x))) →
      (mergeLoop fuel acc A B).map ekey
        = acc.reverse.map ekey ++ kmerge (A.map ekey) (B.map ekey) := by
  intro fuel
  induction fuel with
  | zero =>
    intro A B acc hlen hA hB hacc
    have hA0 : A = [] := by cases A <;> simp_all
    have hB0 : B = [] := by cases B <;> simp_all
    subst hA0; subst hB0
    simp [mergeLoop, kmerge]
  | succ fuel ih =>
    intro A B acc hlen hA hB hacc
    cases A with
    | nil =>
      cases B with
      | nil => simp [mergeLoop, kmerge]
      | cons e2 t2 =>
        have hpush : pushEvent acc e2 = e2 :: acc :=
          pushEvent_eq_cons (fun l hl => (hacc l hl).2 e2 (List.mem_cons_self _ _))
        have hrec := ih [] t2 (e2 :: acc)
          (by simp at hlen ⊢; omega)
          (by simp)
          ((List.chain'_cons'.mp (by simpa using hB)).2)
          (by
            intro l hl
            simp only [List.head?_cons, Option.some.injEq] at hl
            subst hl
            refine ⟨by simp, ?_⟩
            intro x hx
            have := chain_head_lt (by simpa using hB) (ekey x) (List.mem_map_of_mem ekey hx)
            exact this)
        rw [mergeLoop, hpush, hrec]
        simp [kmerge]
    | cons e1 t1 =>
      cases B with
      | nil =>
        have hpush : pushEvent acc e1 = e1 :: acc :=
          pushEvent_eq_cons (fun l hl => (hacc l hl).1 e1 (List.mem_cons_self _ _))
        have hrec := ih t1 [] (e1 :: acc)
          (by simp at hlen ⊢; omega)
          ((List.chain'_cons'.mp (by simpa using hA)).2)
          (by simp)
          (by
            intro l hl
            simp only [List.head?_cons, Option.some.injEq] at hl
            subst hl
            refine ⟨?_, by simp⟩
            intro x hx
            exact chain_head_lt (by simpa using hA) (ekey x) (List.mem_map_of_mem ekey hx))
        rw [mergeLoop, hpush, hrec]
        simp [kmerge_nil_right]
      | cons e2 t2 =>
        have hA' : List.Chain' keyLt (t1.map ekey) :=
          (List.chain'_cons'.mp (by simpa using hA)).2
        have hB' : List.Chain' keyLt (t2.map ekey) :=
          (List.chain'_cons'.mp (by simpa using hB)).2
        have hAhead : ∀ x ∈ t1, keyLt (ekey e1) (ekey x) := fun x hx =>
          chain_head_lt (by simpa using hA) (ekey x) (List.mem_map_of_mem ekey hx)
        have hBhead : ∀ x ∈ t2, keyLt (ekey e2) (ekey x) := fun x hx =>
          chain_head_lt (by simpa using hB) (ekey x) (List.mem_map_of_mem ekey hx)
        cases hce : checkEquality e1 e2 with
        | leftEventOlder =>
          have h12 : keyLt (ekey e1) (ekey e2) := checkEquality_left_iff.mp hce
          have hpush : pushEvent acc e1 = e1 :: acc :=
            pushEvent_eq_cons (fun l hl => (hacc l hl).1 e1 (List.mem_cons_self _ _))
          have hrec := ih t1 (e2 :: t2) (e1 :: acc)
            (by simp at hlen ⊢; omega)
            hA' hB
            (by
              intro l hl
              simp only [List.head?_cons, Option.some.injEq] at hl
              subst hl
              refine ⟨hAhead, ?_⟩
              intro x hx
              rcases List.mem_cons.mp hx with rfl | hx2
              · exact h12
              · exact keyLt_trans h12 (hBhead x hx2))
          rw [mergeLoop, hce, hpush, hrec]
          have : kmerge (ekey e1 :: t1.map ekey) (ekey e2 :: t2.map ekey)
              = ekey e1 :: kmerge (t1.map ekey) (ekey e2 :: t2.map ekey) := by
            rw [kmerge, if_pos h12]
          simp [this]
        | rightEventOlder =>
          have h21 : keyLt (ekey e2) (ekey e1) := checkEquality_right_iff.mp hce
          have hpush : pushEvent acc e2 = e2 :: acc :=
            pushEvent_eq_cons (fun l hl => (hacc l hl).2 e2 (List.mem_cons_self _ _))
          have hrec := ih (e1 :: t1) t2 (e2 :: acc)
            (by simp at hlen ⊢; omega)
            hA hB'
            (by
              intro l hl
              simp only [List.head?_cons, Option.some.injEq] at hl
              subst hl
              refine ⟨?_, hBhead⟩
              intro x hx
              rcases List.mem_cons.mp hx with rfl | hx2
              · exact h21
              · exact keyLt_trans h21 (hAhead x hx2))
          rw [mergeLoop, hce, hpush, hrec]
          have : kmerge (ekey e1 :: t1.map ekey) (ekey e2 :: t2.map ekey)
              = ekey e2 :: kmerge (ekey e1 :: t1.map ekey) (t2.map ekey) := by
            rw [kmerge, if_neg (keyLt_asymm h21), if_pos h21]
          simp [this]
        | eventsEqual =>
          have heq : ekey e1 = ekey e2 := checkEquality_equal_iff.mp hce
          have hrec := ih t1 (e2 :: t2) acc
            (by simp at hlen ⊢; omega)
            hA' hB
            (by
              intro l hl
              refine ⟨?_, (hacc l hl).2⟩
              intro x hx
              exact (hacc l hl).1 x (List.mem_cons_of_mem _ hx))
          have hk1 : kmerge (ekey e1 :: t1.map ekey) (ekey e2 :: t2.map ekey)
              = ekey e2 :: kmerge (t1.map ekey) (t2.map ekey) := by
            rw [kmerge, if_neg (by rw [heq]; exact keyLt_irrefl _),
              if_neg (by rw [heq]; exact keyLt_irrefl _)]
          have hk2 : kmerge (t1.map ekey) (ekey e2 :: t2.map ekey)
              = ekey e2 :: kmerge (t1.map ekey) (t2.map ekey) := by
            refine kmerge_cons_right_of_lt ?_
            intro x hx
            rcases List.mem_map.mp hx with ⟨y, hy, rfl⟩
            exact heq ▸ hAhead y hy
          rw [mergeLoop, hce, hrec]
          simp only [List.map_cons]
          rw [hk2, hk1]

theorem kmerge_all_lt_right {a : Int × Nat} {l1 l2 : List (Int × Nat)}
    (h : ∀ x ∈ l2, keyLt x a) :
    kmerge (a :: l1) l2 = l2 ++ a :: l1 := by
  induction l2 with
  | nil => simp [kmerge_nil_right]
  | cons b bs ih =>
    have hba : keyLt b a := h b (List.mem_cons_self _ _)
    rw [kmerge, if_neg (keyLt_asymm hba), if_pos hba,
      ih (fun x hx => h x (List.mem_cons_of_mem _ hx))]
    rfl

theorem kmerge_all_lt_left {b : Int × Nat} {l1 l2 : List (Int × Nat)}
    (h : ∀ x ∈ l1, keyLt x b) :
    kmerge l1 (b :: l2) = l1 ++ b :: l2 := by
  induction l1 with
  | nil => simp [kmerge]
  | cons a t ih =>
    have hab : keyLt a b := h a (List.mem_cons_self _ _)
    rw [kmerge, if_pos hab, ih (fun x hx => h x (List.mem_cons_of_mem _ hx))]
    rfl

theorem getLastD_map (f : EventLog → Int × Nat) :
    ∀ (l : List EventLog) (d : EventLog), (l.map f).getLastD (f d) = f (l.getLastD d) := by
  intro l
  induction l with
  | nil => intro d; rfl
  | cons a t ih =>
    intro d
    rw [List.map_cons, List.getLastD_cons, List.getLastD_cons, ih a]

theorem sortedStrict_keys {l : List EventLog} (h : sortedStrict l) :
    List.Chain' keyLt (l.map ekey) := by
  rw [List.chain'_map]
  exact h.imp (fun a b hab => checkEquality_left_iff.mp hab)

/-- On strictly sorted inputs, `merge` produces exactly the reference
key-merge of the two logs' key sequences (fast paths included). -/
theorem merge_keys {A B : List EventLog} (hA : sortedStrict A) (hB : sortedStrict B) :
    (merge A B).map ekey = kmerge (A.map ekey) (B.map ekey) := by
  cases A with
  | nil => cases B <;> simp [merge, kmerge]
  | cons e1 t1 =>
    cases B with
    | nil => simp [merge, kmerge_nil_right]
    | cons e2 t2 =>
      have hkA := sortedStrict_keys hA
      have hkB := sortedStrict_keys hB
      rw [merge]
      split
      · rename_i hfast
        have hlast : keyLt (ekey ((e2 :: t2).getLastD e2)) (ekey e1) :=
          checkEquality_right_iff.mp hfast
        have hall : ∀ x ∈ (e2 :: t2).map ekey, keyLt x (ekey e1) := by
          intro x hx
          rcases List.mem_map.mp hx with ⟨y, hy, rfl⟩
          rcases chain_lt_getLastD hkB (ekey e2) (ekey y) (List.mem_map_of_mem ekey hy)
            with hlt | heqy
          · rw [getLastD_map ekey (e2 :: t2) e2] at hlt
            exact keyLt_trans hlt hlast
          · rw [getLastD_map ekey (e2 :: t2) e2] at heqy
            exact heqy ▸ hlast
        rw [List.map_cons, kmerge_all_lt_right (fun x hx => hall x hx)]
        simp
      · split
        · rename_i hfast2
          have hlast : keyLt (ekey ((e1 :: t1).getLastD e1)) (ekey e2) :=
            checkEquality_right_iff.mp hfast2
          have hall : ∀ x ∈ (e1 :: t1).map ekey, keyLt x (ekey e2) := by
            intro x hx
            rcases List.mem_map.mp hx with ⟨y, hy, rfl⟩
            rcases chain_lt_getLastD hkA (ekey e1) (ekey y) (List.mem_map_of_mem ekey hy)
              with hlt | heqy
            · rw [getLastD_map ekey (e1 :: t1) e1] at hlt
              exact keyLt_trans hlt hlast
            · rw [getLastD_map ekey (e1 :: t1) e1] at heqy
              exact heqy ▸ hlast
          rw [show ((e2 :: t2).map ekey) = ekey e2 :: t2.map ekey from rfl,
            kmerge_all_lt_left (fun x hx => hall x hx)]
          simp
        · rw [mergeLoop_keys ((e1 :: t1).length + (e2 :: t2).length) (e1 :: t1) (e2 :: t2) []
            (le_refl _) hkA hkB (by simp)]
          simp

/-- C2: for sorted, duplicate-free logs `A` and `B`, `merge A B` and
`merge B A` agree on the sequence of (Lamport, replica-id) keys, i.e.
they are equal when events are compared by `checkEquality`'s notion of
equality (in particular equal as multisets after deduplication). -/
theorem merge_comm_keys_C2 {A B : List EventLog}
    (hA : sortedStrict A) (hB : sortedStrict B) :
    (merge A B).map ekey = (merge B A).map ekey := by
  rw [merge_keys hA hB, merge_keys hB hA, kmerge_comm]

/-- Witness for C2 at two concrete sorted logs with an overlapping event. -/
theorem merge_comm_keys_witness_C2 :
    sortedStrict [{ UUID := 1, LamportTimestamp := 1, EventType := .AddEvent },
        { UUID := 1, LamportTimestamp := 3, EventType := .UpdateEvent }] ∧
    sortedStrict [{ UUID := 2, LamportTimestamp := 2, EventType := .AddEvent },
        { UUID := 1, LamportTimestamp := 3, EventType := .UpdateEvent }] ∧
    (merge
        [{ UUID := 1, LamportTimestamp := 1, EventType := .AddEvent },
          { UUID := 1, LamportTimestamp := 3, EventType := .UpdateEvent }]
        [{ UUID := 2, LamportTimestamp := 2, EventType := .AddEvent },
          { UUID := 1, LamportTimestamp := 3, EventType := .UpdateEvent }]).map ekey
      = (merge
        [{ UUID := 2, LamportTimestamp := 2, EventType := .AddEvent },
          { UUID := 1, LamportTimestamp := 3, EventType := .UpdateEvent }]
        [{ UUID := 1, LamportTimestamp := 1, EventType := .AddEvent },
          { UUID := 1, LamportTimestamp := 3, EventType := .UpdateEvent }]).map ekey :=
  ⟨by decide, by decide, merge_comm_keys_C2 (by decide) (by decide)⟩

/-- The projected `ListItem` of the source's current version, with the
fields its code reads and writes: `key`, `rawLine`, `Note`, `IsHidden`,
`isDeleted`, the `child`/`parent` doubly-linked-list pointers, the
transient `matchChild`/`matchParent` pointers and the per-item `friends`.
Go pointers become heap object ids (`Option Nat`, `none` = nil), so Go
pointer equality is id equality. The render-only `localEmail` field is
not read by any modelled code and is dropped. -/
structure Item where
  key : String := ""
  rawLine : String := ""
  Note : Option String := none
  IsHidden : Bool := false
  isDeleted : Bool := false
  child : Option Nat := none
  parent : Option Nat := none
  matchChild : Option Nat := none
  matchParent : Option Nat := none
  friends : LineFriends := {}
deriving DecidableEq, Repr, Inhabited

/-- Object heap: allocated `ListItem`s addressed by id. -/
def Heap := List (Nat × Item)
deriving DecidableEq, Inhabited

def hGet (h : Heap) (i : Nat) : Option Item :=
  match h with
  | [] => none
  | (j, it) :: t => if i = j then some it else hGet t i

/-- Go pointer dereference: never dangles in states reached from the
empty heap, where every stored id is allocated. -/
def hGetD (h : Heap) (i : Nat) : Item :=
  (hGet h i).getD {}

def hSet (h : Heap) (i : Nat) (it : Item) : Heap :=
  match h with
  | [] => [(i, it)]
  | (j, old) :: t => if i = j then (i, it) :: t else (j, old) :: hSet t i it

/-- Lexicographic order on char lists; `sortStrings` below stands in for
Go's `sort.Strings` (UTF-8 byte order equals code-point order). -/
def charListLe : List Char → List Char → Bool
  | [], _ => true
  | _ :: _, [] => false
  | c :: cs, d :: ds => if c < d then true else if d < c then false else charListLe cs ds

def strLe (a b : String) : Bool :=
  charListLe a.data b.data

def insertSorted (s : String) : List String → List String
  | [] => [s]
  | x :: t => if strLe s x then s :: x :: t else x :: insertSorted s t

def sortStrings : List String → List String
  | [] => []
  | x :: t => insertSorted x (sortStrings t)

/-- In-memory `DBListRepo` state used by `Replay`/`processEventLog`: the
object heap, the root pointer, `listItemTracker`, the two idempotence
caches and the Lamport clock. Go maps become association lists (new
bindings shadow old ones). The `DBListRepo` struct of the current source
version is not itself in src; the fields here are the ones
`processEventLog` and its helpers read and write. -/
structure RState where
  heap : Heap := []
  nextId : Nat := 0
  root : Option Nat := none
  listItemTracker : List (String × Nat) := []
  processedEventLogCache : List String := []
  listItemProcessedEventLogTypeCache : List ((EventType × String) × EventLog) := []
  currentLamportTimestamp : Int := 0
  email : String := ""
deriving DecidableEq, Inhabited

def trackerGet (st : RState) (k : String) : Option Nat :=
  match st.listItemTracker.find? (fun p => p.1 = k) with
  | some p => some p.2
  | none => none

def trackerSet (st : RState) (k : String) (i : Nat) : RState :=
  { st with listItemTracker := (k, i) :: st.listItemTracker }

def typeCacheGet (st : RState) (et : EventType) (k : String) : Option EventLog :=
  match st.listItemProcessedEventLogTypeCache.find? (fun p => p.1 = (et, k)) with
  | some p => some p.2
  | none => none

def hModify (st : RState) (i : Nat) (f : Item → Item) : RState :=
  { st with heap := hSet st.heap i (f (hGetD st.heap i)) }

/-- `add` of the source: allocate a new `ListItem` whose `child` is
`childItem`, then splice it into the doubly-linked list (becoming the new
root when `childItem` is nil). Returns the new item's id. -/
def addItem (st : RState) (key line : String) (friends : LineFriends)
    (note : Option String) (childItem : Option Nat) : RState × Nat :=
  let nid := st.nextId
  let newItem : Item :=
    { key := key, rawLine := line, Note := note, friends := friends, child := childItem }
  let st := { st with heap := (nid, newItem) :: st.heap, nextId := nid + 1 }
  match childItem with
  | none =>
      let oldRoot := st.root
      let st := { st with root := some nid }
      match oldRoot with
      | some orId =>
          let st := hModify st nid (fun it => { it with parent := some orId })
          let st := hModify st orId (fun it => { it with child := some nid })
          (st, nid)
      | none => (st, nid)
  | some cid =>
      let cIt := hGetD st.heap cid
      let st :=
        match cIt.parent with
        | some pid =>
            let st := hModify st pid (fun it => { it with child := some nid })
            hModify st nid (fun it => { it with parent := some pid })
        | none => st
      let st := hModify st cid (fun it => { it with parent := some nid })
      (st, nid)

/-- `update` of the source: a non-empty line replaces the line and merges
the friends emails (minus the repo owner's email, sorted); an empty line
replaces the note only. Always clears the tombstone flag. -/
def updateItem (st : RState) (id : Nat) (line : String) (friends : LineFriends)
    (note : Option String) : RState :=
  let st :=
    if line.length > 0 then
      hModify st id (fun it =>
        { it with
            rawLine := line,
            friends :=
              { IsProcessed := friends.IsProcessed, Offset := friends.Offset,
                Emails := sortStrings
                  (((it.friends.Emails ++ friends.Emails).eraseDups).filter
                    (fun s => s ≠ st.email)) } })
    else
      hModify st id (fun it => { it with Note := note })
  hModify st id (fun it => { it with isDeleted := false })

/-- `del` of the source: mark the tombstone, then unlink from the live
list, re-reading the item's fields between the two pointer fixups exactly
as the Go statements do. -/
def delItem (st : RState) (id : Nat) : RState :=
  let st := hModify st id (fun it => { it with isDeleted := true })
  let it := hGetD st.heap id
  let st :=
    match it.child with
    | some c => hModify st c (fun x => { x with parent := it.parent })
    | none => { st with root := it.parent }
  let it2 := hGetD st.heap id
  match it2.parent with
  | some p => hModify st p (fun x => { x with child := it2.child })
  | none => st

/-- `setVisibility` of the source. -/
def setVisibility (st : RState) (id : Nat) (isVisible : Bool) : RState :=
  hModify st id (fun it => { it with IsHidden := !isVisible })

/-- `move` of the source: delete then re-add under the same key, anchored
to `childId`, preserving the hidden flag (read before the re-add, as the
Go code does). -/
def moveItem (st : RState) (id : Nat) (childId : Option Nat) : RState × Nat :=
  let st1 := delItem st id
  let it := hGetD st1.heap id
  let stp := addItem st1 it.key it.rawLine it.friends it.Note childId
  (if it.IsHidden then setVisibility stp.1 stp.2 false else stp.1, stp.2)

/-- The dispatch `switch` of `processEventLog`, after the cache, clock
and orphan handling. `item`/`target` are the (possibly tombstone-cleared)
tracker lookups. -/
def withSomeId (p : RState × Nat) : RState × Option Nat :=
  (p.1, some p.2)

def dispatchEvent (st : RState) (e : EventLog) (item target : Option Nat) :
    RState × Option Nat :=
  match e.EventType, item with
  | .AddEvent, some i =>
      let st := updateItem st i e.Line e.Friends e.Note
      let st := updateItem st i "" e.Friends e.Note
      (st, some i)
  | .AddEvent, none =>
      withSomeId (addItem st e.ListItemKey e.Line e.Friends e.Note target)
  | .UpdateEvent, some i => (updateItem st i e.Line e.Friends e.Note, some i)
  | .UpdateEvent, none =>
      withSomeId (addItem st e.ListItemKey e.Line e.Friends e.Note target)
  | .MoveUpEvent, some i => withSomeId (moveItem st i target)
  | .MoveDownEvent, some i => withSomeId (moveItem st i target)
  | .ShowEvent, some i => (setVisibility st i true, some i)
  | .HideEvent, some i => (setVisibility st i false, some i)
  | .DeleteEvent, some i => (delItem st i, some i)
  | _, _ => (st, item)

/-- The per-(kind,key) cache decision of `processEventLog`: skip when the
cached event for this kind and key is not older than `e`. -/
def typeCacheSkipB (st : RState) (e : EventLog) : Bool :=
  match typeCacheGet st e.EventType e.ListItemKey with
  | some ce =>
      match checkEquality ce e with
      | .rightEventOlder => true
      | .eventsEqual => true
      | .leftEventOlder => false
  | none => false

/-- `processEventLog` of the source (current version): the
processed-event cache, the per-(kind,key) last-applied cache, the Lamport
clock advance, tombstone nil-ing, the orphan skip, the `MoveDownEvent`
nil-target early return, the dispatch, and the tracker registration.
The `generateFriendChangeEvents` call mutates only the repo-level friends
registry and the walfile registries, which no modelled observation reads,
and is omitted. -/
def processEventLog (st : RState) (e : EventLog) : RState × Option Nat :=
  let item0 := trackerGet st e.ListItemKey
  let target0 := trackerGet st e.TargetListItemKey
  if st.processedEventLogCache.contains (eventKey e) then
    (st, item0)
  else
    let st1 := { st with processedEventLogCache := eventKey e :: st.processedEventLogCache }
    if typeCacheSkipB st e then (st1, item0)
    else
      let st2 := { st1 with listItemProcessedEventLogTypeCache :=
        ((e.EventType, e.ListItemKey), e) :: st1.listItemProcessedEventLogTypeCache }
      let st3 :=
        if st2.currentLamportTimestamp ≤ e.LamportTimestamp then
          { st2 with currentLamportTimestamp := e.LamportTimestamp }
        else st2
      let item :=
        match item0 with
        | some i => if (hGetD st3.heap i).isDeleted then none else some i
        | none => none
      let target :=
        match target0 with
        | some i => if (hGetD st3.heap i).isDeleted then none else some i
        | none => none
      if item = none ∧ e.EventType ≠ .AddEvent ∧ e.EventType ≠ .UpdateEvent then
        (st3, item)
      else if e.EventType = .MoveDownEvent ∧ target = none then
        (st3, item)
      else
        let d := dispatchEvent st3 e item target
        let st4 :=
          match d.2 with
          | some i => trackerSet d.1 e.ListItemKey i
          | none => d.1
        (st4, d.2)

/-- `Replay` restricted to a fresh repo (as `checkWalIntegrity` builds
one): fold `processEventLog` over the log. The trailing `r.log` merge of
`Replay` holds bookkeeping no projection reads. -/
def replayWal (wal : List EventLog) : RState :=
  wal.foldl (fun st e => (processEventLog st e).1) {}

/-- Observation helper: the projected list from the root, following
`parent` pointers, as (key, rawLine) pairs. Fuel bounds the walk; any
state reached by `replayWal` has at most `heap.length` reachable items. -/
def projListAux (h : Heap) : Nat → Option Nat → List (String × String)
  | 0, _ => []
  | _, none => []
  | fuel + 1, some id =>
      match hGet h id with
      | none => []
      | some it => (it.key, it.rawLine) :: projListAux h fuel it.parent

def projList (st : RState) : List (String × String) :=
  projListAux st.heap (st.heap.length + 1) st.root

/-- The walk of `Match` as `checkWalIntegrity` invokes it (empty search
groups, `showHidden = true`, empty current key, offset 0, limit 0): every
item in the linked list matches, match pointers are nullified and then
relinked, and the returned list holds the value snapshot taken before the
current item's match pointers are relinked, exactly as `res` receives
`*cur` before `matchChild`/`matchParent` are set. `fuel` bounds the walk:
a walk longer than the heap would revisit an item and loop forever in Go,
which `none` stands for. -/
def matchAllAux (h0 : Unit) : Nat → RState → Nat → Option Nat → List Item →
    Option (RState × List Item)
  | 0, _, _, _, _ => none
  | fuel + 1, st, cur, lastCur, res =>
      let st := hModify st cur (fun it => { it with matchChild := none, matchParent := none })
      let snap := hGetD st.heap cur
      let res := res ++ [snap]
      let st :=
        match lastCur with
        | some l => hModify st l (fun it => { it with matchParent := some cur })
        | none => st
      let st := hModify st cur (fun it => { it with matchChild := lastCur })
      let curIt := hGetD st.heap cur
      match curIt.parent with
      | none => some (st, res)
      | some p => matchAllAux () fuel st p (some cur) res

/-- `Match([][]rune{}, true, "", 0, 0)` of the source, as used by
`checkWalIntegrity`. Returns the post-walk state and the `res` copies. -/
def matchAll (st : RState) : Option (RState × List Item) :=
  match st.root with
  | none => some (st, [])
  | some r => matchAllAux () (st.heap.length + 1) st r none []

/-- The field comparison of `areListItemsEqual` without pointer checks:
`rawLine`, `string(Note)` (so a nil and an empty note are equal),
`IsHidden` and `key`. -/
def itemsValueEq (a b : Item) : Bool :=
  a.rawLine == b.rawLine && a.Note.getD "" == b.Note.getD "" &&
    a.IsHidden == b.IsHidden && a.key == b.key

def optItemValueEq : Option Item → Option Item → Bool
  | none, none => true
  | some a, some b => itemsValueEq a b
  | _, _ => false

def derefOpt (h : Heap) : Option Nat → Option Item
  | none => none
  | some i => hGet h i

/-- `areListItemsEqual(a, b, true)` for items living in (possibly
different) heaps: the value comparison plus the one-level recursive
comparison of `child`, `parent`, `matchChild` and `matchParent`. -/
def areListItemsEqualPtr (hA hB : Heap) : Option Nat → Option Nat → Bool
  | none, none => true
  | some ia, some ib =>
      let x := hGetD hA ia
      let y := hGetD hB ib
      itemsValueEq x y &&
        optItemValueEq (derefOpt hA x.child) (derefOpt hB y.child) &&
        optItemValueEq (derefOpt hA x.parent) (derefOpt hB y.parent) &&
        optItemValueEq (derefOpt hA x.matchChild) (derefOpt hB y.matchChild) &&
        optItemValueEq (derefOpt hA x.matchParent) (derefOpt hB y.matchParent)
  | _, _ => false

/-- The traversal loop of `checkListItemPtrs`: while the current item has
a parent, check the back pointer, the match-list entry and key
uniqueness, exactly in the source's order; on exit check for orphaned
match items. Go pointer comparison `listItem.child != prev` is id
comparison. Indexing `matchItems[i]` out of range panics in Go; that and
fuel exhaustion (an infinite Go loop) are failures here. -/
def checkPtrsAux (h : Heap) (matchItems : List Item) :
    Nat → Nat → Option Nat → Nat → List String → Bool
  | 0, _, _, _, _ => false
  | fuel + 1, cur, prev, i, processed =>
      let curIt := hGetD h cur
      match curIt.parent with
      | none => decide (¬ (i + 1 < matchItems.length))
      | some p =>
          if curIt.child ≠ prev then false
          else
            match matchItems[i]? with
            | none => false
            | some mi =>
                if ¬ itemsValueEq curIt mi then false
                else if processed.contains curIt.key then false
                else checkPtrsAux h matchItems fuel p (some cur) (i + 1) (curIt.key :: processed)

/-- `checkListItemPtrs` of the source; `true` means no integrity error. -/
def checkListItemPtrs (h : Heap) (root : Option Nat) (matchItems : List Item) : Bool :=
  match root with
  | none => true
  | some rid =>
      if (hGetD h rid).child ≠ none then false
      else checkPtrsAux h matchItems (h.length + 2) rid none 0 []

/-- The walk of `listsAreEquivalent`: advance both lists while both have
a parent, comparing after each step; on exit re-compare the current pair.
Fuel exhaustion models the infinite Go loop on (unreachable) cyclic
lists. -/
def listsAreEquivalentAux (hA hB : Heap) : Nat → Nat → Nat → Bool
  | 0, _, _ => false
  | fuel + 1, ia, ib =>
      let aIt := hGetD hA ia
      let bIt := hGetD hB ib
      match aIt.parent, bIt.parent with
      | some pa, some pb =>
          if ¬ areListItemsEqualPtr hA hB (some pa) (some pb) then false
          else listsAreEquivalentAux hA hB fuel pa pb
      | _, _ => areListItemsEqualPtr hA hB (some ia) (some ib)

/-- `listsAreEquivalent` of the source, on roots in their heaps. -/
def listsAreEquivalent (hA : Heap) (rootA : Option Nat) (hB : Heap) (rootB : Option Nat) :
    Bool :=
  match rootA, rootB with
  | some _, none => false
  | none, some _ => false
  | none, none => true
  | some ia, some ib =>
      if ¬ areListItemsEqualPtr hA hB (some ia) (some ib) then false
      else listsAreEquivalentAux hA hB (hA.length + hB.length + 2) ia ib

/-- Result of `checkWalIntegrity`: the replayed-and-matched test repo
state, the match copies, and whether the check passed. The test repo's
idempotence caches are empty maps here; the current `DBListRepo` struct
literal is not in src, and the spec's replay (§4.3) requires working
caches. -/
structure IntegrityResult where
  st : RState
  matchItems : List Item
  ok : Bool
deriving DecidableEq

/-- `checkWalIntegrity` of the source: replay into a fresh repo, run the
full match, then `checkListItemPtrs`. -/
def checkWalIntegrity (wal : List EventLog) : IntegrityResult :=
  let st := replayWal wal
  match matchAll st with
  | none => ⟨st, [], false⟩
  | some (st', res) => ⟨st', res, checkListItemPtrs st'.heap st'.root res⟩

def amGet (m : List (String × Item)) (k : String) : Option Item :=
  match m.find? (fun p => p.1 = k) with
  | some p => some p.2
  | none => none

def amSet (m : List (String × Item)) (k : String) (it : Item) : List (String × Item) :=
  (k, it) :: m

def amDel (m : List (String × Item)) (k : String) : List (String × Item) :=
  m.filter (fun p => p.1 ≠ k)

/-- The wal walk of `recoverWal`: upsert on Add/Update (Update mutates
note and line separately), set the hidden flag on Show/Hide when the key
is present, drop the key on Delete. -/
def recoverStep (m : List (String × Item)) (e : EventLog) : List (String × Item) :=
  match e.EventType with
  | .AddEvent =>
      match amGet m e.ListItemKey with
      | none => amSet m e.ListItemKey { rawLine := e.Line, Note := e.Note, key := e.ListItemKey }
      | some item => amSet m e.ListItemKey { item with rawLine := e.Line, Note := e.Note }
  | .UpdateEvent =>
      match amGet m e.ListItemKey with
      | none => amSet m e.ListItemKey { rawLine := e.Line, Note := e.Note, key := e.ListItemKey }
      | some item =>
          if e.Note.isSome then amSet m e.ListItemKey { item with Note := e.Note }
          else amSet m e.ListItemKey { item with rawLine := e.Line }
  | .HideEvent =>
      match amGet m e.ListItemKey with
      | some item => amSet m e.ListItemKey { item with IsHidden := true }
      | none => m
  | .ShowEvent =>
      match amGet m e.ListItemKey with
      | some item => amSet m e.ListItemKey { item with IsHidden := false }
      | none => m
  | .DeleteEvent => amDel m e.ListItemKey
  | _ => m

/-- `recoverWal` of the source: collect the ordered key list and item
metadata from the match list and the wal, then emit one Add per surviving
key in reverse list order, plus a Hide (at an incremented Lamport) for
each hidden item. A key deleted from the map reads back as Go's zero
`ListItem`. The emitted Add events carry the zero values the source
leaves in them: `UUID` 0 and `LamportTimestamp` 0. -/
def recoverWal (clock : Int) (wal : List EventLog) (matchItems : List Item) :
    Int × List EventLog :=
  let start : List String × List (String × Item) := ([], [])
  let init := matchItems.foldl
    (fun (acc : List String × List (String × Item)) item =>
      let ord := if (amGet acc.2 item.key).isSome then acc.1 else acc.1 ++ [item.key]
      (ord, amSet acc.2 item.key item))
    start
  let m := wal.foldl recoverStep init.2
  init.1.reverse.foldl
    (fun (acc : Int × List EventLog) k =>
      let item := (amGet m k).getD {}
      let addEv : EventLog :=
        { EventType := .AddEvent, ListItemKey := item.key,
          Line := item.rawLine, Note := item.Note }
      let w := acc.2 ++ [addEv]
      if item.IsHidden then
        (acc.1 + 1, w ++ [{ EventType := .HideEvent, LamportTimestamp := acc.1 + 1,
                            ListItemKey := item.key }])
      else
        (acc.1, w))
    (clock, [])

/-- The comparator `compact` (and `reorderWal`) sort by. -/
def walOlder (a b : EventLog) : Prop :=
  checkEquality a b = .leftEventOlder

instance : DecidableRel walOlder := fun a b =>
  inferInstanceAs (Decidable (checkEquality a b = .leftEventOlder))

/-- The `sort.Slice` call of `compact`. Go's sort is unspecified on ties;
insertion sort is one correct implementation, and on the strictly sorted
logs of the claims it is the identity. -/
def sortLog (wal : List EventLog) : List EventLog :=
  List.insertionSort walOlder wal

/-- The newest-to-oldest sweep of `compact`, on the reversed wal: keep
everything except an Update whose (line / note) variant has already been
seen for its key. -/
def sweepAux : List EventLog → List String → List String → List EventLog
  | [], _, _ => []
  | e :: rest, withLine, withNote =>
      match e.EventType with
      | .UpdateEvent =>
          if e.Line.length > 0 then
            if withLine.contains e.ListItemKey then sweepAux rest withLine withNote
            else e :: sweepAux rest (e.ListItemKey :: withLine) withNote
          else
            if withNote.contains e.ListItemKey then sweepAux rest withLine withNote
            else e :: sweepAux rest withLine (e.ListItemKey :: withNote)
      | _ => e :: sweepAux rest withLine withNote

/-- The kept-events list of `compact`'s sweep, restored to ascending
order by the final reverse. -/
def compactSweep (wal : List EventLog) : List EventLog :=
  (sweepAux wal.reverse [] []).reverse

/-- The failure outcomes of `compact`: `integrityRecovered` is
`errWalIntregrity` (carrying the recovered wal the source returns with
it); the other three stand for the source's `log.Fatal` calls, which
never return. -/
inductive CompactError where
  | integrityRecovered (recovered : List EventLog)
  | recoveryFailed
  | postSweepIntegrity
  | internalInvariant
deriving DecidableEq

/-- `compact` of the source: sort defensively, check integrity (recover
on failure), sweep, re-check integrity, and require the compacted
projection to be list-equivalent to the pre-compaction one. `clock` is
`r.currentLamportTimestamp`, read only by recovery. -/
def compact (clock : Int) (wal : List EventLog) : Except CompactError (List EventLog) :=
  if wal.isEmpty then .ok []
  else if ¬ (checkWalIntegrity (sortLog wal)).ok then
    if ¬ (checkWalIntegrity
        ((recoverWal clock (sortLog wal) (checkWalIntegrity (sortLog wal)).matchItems).2)).ok
    then .error .recoveryFailed
    else .error (.integrityRecovered
      ((recoverWal clock (sortLog wal) (checkWalIntegrity (sortLog wal)).matchItems).2))
  else if ¬ (checkWalIntegrity (compactSweep (sortLog wal))).ok then
    .error .postSweepIntegrity
  else if ¬ listsAreEquivalent (checkWalIntegrity (sortLog wal)).st.heap
      (checkWalIntegrity (sortLog wal)).st.root
      (checkWalIntegrity (compactSweep (sortLog wal))).st.heap
      (checkWalIntegrity (compactSweep (sortLog wal))).st.root then
    .error .internalInvariant
  else .ok (compactSweep (sortLog wal))

theorem sweepAux_sublist : ∀ (l : List EventLog) (a b : List String),
    (sweepAux l a b).Sublist l := by
  intro l
  induction l with
  | nil => intro a b; simp [sweepAux]
  | cons e rest ih =>
    intro a b
    unfold sweepAux
    split
    · split
      · split
        · exact (ih _ _).cons _
        · exact (ih _ _).cons₂ _
      · split
        · exact (ih _ _).cons _
        · exact (ih _ _).cons₂ _
    · exact (ih _ _).cons₂ _

theorem compactSweep_sublist (l : List EventLog) : (compactSweep l).Sublist l := by
  have h := (sweepAux_sublist l.reverse [] []).reverse
  rwa [List.reverse_reverse] at h

theorem sortLog_length (l : List EventLog) : (sortLog l).length = l.length :=
  (List.perm_insertionSort walOlder l).length_eq

/-- C1 (amended): whenever `compact` returns a log (rather than failing
with recovery or an internal-invariant fatal), that log is a subsequence
of the sorted input, is no longer than the input, and its replay is
list-equivalent to the replay of the sorted input — the equivalence the
source itself enforces before returning. -/
theorem compact_ok_equivalence_C1 (clock : Int) (L C : List EventLog)
    (h : compact clock L = .ok C) :
    C.Sublist (sortLog L) ∧ C.length ≤ L.length ∧
    listsAreEquivalent (checkWalIntegrity (sortLog L)).st.heap
        (checkWalIntegrity (sortLog L)).st.root
        (checkWalIntegrity C).st.heap (checkWalIntegrity C).st.root = true := by
  unfold compact at h
  split at h
  · rename_i hL
    have hC : C = [] := by
      cases h; rfl
    have hLnil : L = [] := by
      cases L
      · rfl
      · simp [List.isEmpty] at hL
    subst hC; subst hLnil
    exact ⟨List.nil_sublist _, by simp, by rfl⟩
  · split at h
    · split at h <;> cases h
    · split at h
      · cases h
      · split at h
        · cases h
        · rename_i hraok hrbok hequiv
          have hC : C = compactSweep (sortLog L) := by cases h; rfl
          subst hC
          refine ⟨compactSweep_sublist _, ?_, ?_⟩
          · calc (compactSweep (sortLog L)).length
                ≤ (sortLog L).length := (compactSweep_sublist _).length_le
              _ = L.length := sortLog_length L
          · exact not_not.mp hequiv

/-- Events of the C1 counterexample log: two Updates on an absent item
(applied as Adds) interleaved with an Add of a second item. -/
def c1u1 : EventLog :=
  { UUID := 7, LamportTimestamp := 1, EventType := .UpdateEvent,
    ListItemKey := "7:0", TargetListItemKey := "0:0", Line := "a" }

def c1a2 : EventLog :=
  { UUID := 7, LamportTimestamp := 2, EventType := .AddEvent,
    ListItemKey := "9:0", TargetListItemKey := "0:0", Line := "x" }

def c1u3 : EventLog :=
  { UUID := 7, LamportTimestamp := 3, EventType := .UpdateEvent,
    ListItemKey := "7:0", TargetListItemKey := "0:0", Line := "b" }

def c1log : List EventLog := [c1u1, c1a2, c1u3]

/-- C1 (counterexample): on the sorted three-event log `c1log`, the
compaction sweep drops the older line-Update, which changes the replayed
list order (the dropped Update had created the item below the head; the
kept one re-creates it at the head), so `compact` does not return a
compacted log at all: it hits the source's internal-invariant
`log.Fatal`. The projections of the full and swept logs differ. -/
theorem compact_counterexample_C1 :
    sortedStrict c1log ∧
    compact 0 c1log = .error .internalInvariant ∧
    projList (replayWal c1log) = [("9:0", "x"), ("7:0", "b")] ∧
    projList (replayWal (compactSweep c1log)) = [("7:0", "b"), ("9:0", "x")] ∧
    listsAreEquivalent (checkWalIntegrity c1log).st.heap
        (checkWalIntegrity c1log).st.root
        (checkWalIntegrity (compactSweep c1log)).st.heap
        (checkWalIntegrity (compactSweep c1log)).st.root = false := by
  refine ⟨by decide, by rfl, by rfl, by rfl, by rfl⟩

/-- A one-event log on which `compact` succeeds, returning the log
unchanged. -/
def c1wlog : List EventLog :=
  [{ UUID := 1, LamportTimestamp := 1, EventType := .AddEvent,
     ListItemKey := "1:1", TargetListItemKey := "0:0", Line := "a" }]

/-- Witness for the amended C1 at the one-event log `c1wlog`. -/
theorem compact_ok_equivalence_witness_C1 :
    c1wlog.Sublist (sortLog c1wlog) ∧ c1wlog.length ≤ c1wlog.length ∧
    listsAreEquivalent (checkWalIntegrity (sortLog c1wlog)).st.heap
        (checkWalIntegrity (sortLog c1wlog)).st.root
        (checkWalIntegrity c1wlog).st.heap
        (checkWalIntegrity c1wlog).st.root = true :=
  compact_ok_equivalence_C1 0 c1wlog c1wlog (by rfl)

theorem hModify_clock (st : RState) (i : Nat) (f : Item → Item) :
    (hModify st i f).currentLamportTimestamp = st.currentLamportTimestamp := rfl

theorem addItem_clock (st : RState) (k l : String) (fr : LineFriends)
    (n : Option String) (c : Option Nat) :
    (addItem st k l fr n c).1.currentLamportTimestamp = st.currentLamportTimestamp := by
  unfold addItem
  cases c with
  | none =>
    dsimp only
    split <;> rfl
  | some cid =>
    dsimp only
    split <;> rfl

theorem updateItem_clock (st : RState) (i : Nat) (l : String) (fr : LineFriends)
    (n : Option String) :
    (updateItem st i l fr n).currentLamportTimestamp = st.currentLamportTimestamp := by
  unfold updateItem
  split <;> rfl

theorem delItem_clock (st : RState) (i : Nat) :
    (delItem st i).currentLamportTimestamp = st.currentLamportTimestamp := by
  unfold delItem
  dsimp only
  split <;> split <;> rfl

theorem setVisibility_clock (st : RState) (i : Nat) (v : Bool) :
    (setVisibility st i v).currentLamportTimestamp = st.currentLamportTimestamp := rfl

theorem moveItem_clock (st : RState) (i : Nat) (c : Option Nat) :
    (moveItem st i c).1.currentLamportTimestamp = st.currentLamportTimestamp := by
  unfold moveItem
  dsimp only
  split
  · rw [setVisibility_clock, addItem_clock, delItem_clock]
  · rw [addItem_clock, delItem_clock]

theorem dispatchEvent_clock (st : RState) (e : EventLog) (item target : Option Nat) :
    (dispatchEvent st e item target).1.currentLamportTimestamp
      = st.currentLamportTimestamp := by
  unfold dispatchEvent withSomeId
  cases e.EventType <;> cases item <;>
    simp only [updateItem_clock, addItem_clock, moveItem_clock, setVisibility_clock,
      delItem_clock]

/-- The first early return of `processEventLog`: the event is already in
the processed-event cache. -/
def processedCacheHit (st : RState) (e : EventLog) : Prop :=
  st.processedEventLogCache.contains (eventKey e) = true

instance (st : RState) (e : EventLog) : Decidable (processedCacheHit st e) :=
  inferInstanceAs (Decidable (_ = true))

/-- The second early return of `processEventLog`: the per-(kind,key)
cache holds an event of this kind for this key that is not older than
`e`. -/
def typeCacheSkip (st : RState) (e : EventLog) : Prop :=
  typeCacheSkipB st e = true

instance (st : RState) (e : EventLog) : Decidable (typeCacheSkip st e) :=
  inferInstanceAs (Decidable (_ = true))

theorem trackerSet_clock (st : RState) (k : String) (i : Nat) :
    (trackerSet st k i).currentLamportTimestamp = st.currentLamportTimestamp := rfl

/-- C3 (amended): an event that is not deduplicated by either replay
cache leaves the Lamport clock at exactly `max(current_before, e.lamport)`
— the source takes the maximum but never adds one, so a received event
does not advance the clock strictly past its timestamp. -/
theorem clock_max_C3 (st : RState) (e : EventLog)
    (h1 : ¬ processedCacheHit st e) (h2 : ¬ typeCacheSkip st e) :
    (processEventLog st e).1.currentLamportTimestamp
      = max st.currentLamportTimestamp e.LamportTimestamp := by
  unfold processedCacheHit at h1
  unfold typeCacheSkip at h2
  have hb : typeCacheSkipB st e = false := Bool.eq_false_iff.mpr h2
  unfold processEventLog
  rw [if_neg h1, hb]
  simp only [Bool.false_eq_true, if_false]
  by_cases hle : st.currentLamportTimestamp ≤ e.LamportTimestamp
  all_goals
    simp only [hle, if_true, if_false, reduceIte]
  all_goals
    split
  all_goals
    try split
  all_goals
    try (split <;> simp only [trackerSet_clock, dispatchEvent_clock])
  all_goals try dsimp only
  all_goals omega

/-- Event for the C3 theorems: an Add carrying Lamport timestamp 5,
received by a fresh replica whose clock is 0. -/
def c3event : EventLog :=
  { UUID := 1, LamportTimestamp := 5, EventType := .AddEvent,
    ListItemKey := "1:5", TargetListItemKey := "0:0", Line := "a" }

/-- C3 (counterexample): replaying a single event with Lamport 5 from a
fresh state leaves the clock at 5, not at `max(0, 5) + 1 = 6`, and the
clock does not strictly advance past the incoming timestamp. -/
theorem clock_counterexample_C3 :
    (replayWal [c3event]).currentLamportTimestamp = 5 ∧
    (replayWal [c3event]).currentLamportTimestamp ≠
      max (replayWal []).currentLamportTimestamp c3event.LamportTimestamp + 1 ∧
    ¬ (replayWal [c3event]).currentLamportTimestamp > c3event.LamportTimestamp :=
  ⟨rfl, by decide, by decide⟩

/-- Witness for the amended C3 at the fresh state and `c3event`. -/
theorem clock_max_witness_C3 :
    ¬ processedCacheHit (replayWal []) c3event ∧
    ¬ typeCacheSkip (replayWal []) c3event ∧
    (processEventLog (replayWal []) c3event).1.currentLamportTimestamp
      = max (replayWal []).currentLamportTimestamp c3event.LamportTimestamp :=
  ⟨by decide, by decide, clock_max_C3 _ _ (by decide) (by decide)⟩

/-- Replica 1's Add of the two-replica scenario (C4). -/
def c4e1 : EventLog :=
  { UUID := 1, LamportTimestamp := 1, EventType := .AddEvent,
    ListItemKey := "1:1", TargetListItemKey := "0:0", Line := "a" }

/-- Replica 2's Add of the two-replica scenario (C4). -/
def c4e2 : EventLog :=
  { UUID := 2, LamportTimestamp := 1, EventType := .AddEvent,
    ListItemKey := "2:1", TargetListItemKey := "0:0", Line := "b" }

/-- C4 (counterexample): merging the two tied Adds in either order gives
the same log, with replica 1 first (it wins the tie by lower replica id
and is applied first), but replaying that log does NOT produce the
claimed order from the head: each Add whose target "0:0" resolves to no
item is inserted at the head, so replica 2's later-applied item becomes
the head. -/
theorem scenario_counterexample_C4 :
    merge [c4e1] [c4e2] = [c4e1, c4e2] ∧
    merge [c4e2] [c4e1] = [c4e1, c4e2] ∧
    projList (replayWal (merge [c4e1] [c4e2])) ≠ [("1:1", "a"), ("2:1", "b")] :=
  ⟨rfl, rfl, by decide⟩

/-- C4 (amended): after merging both logs in either order and replaying,
the projected list from the head is `["2:1":"b", "1:1":"a"]` — replica
1's event is applied first, but replica 2's item ends up as the head. -/
theorem scenario_order_C4 :
    projList (replayWal (merge [c4e1] [c4e2])) = [("2:1", "b"), ("1:1", "a")] ∧
    projList (replayWal (merge [c4e2] [c4e1])) = [("2:1", "b"), ("1:1", "a")] :=
  ⟨rfl, rfl⟩

/-- The out-of-order Update of scenario C5. -/
def c5update : EventLog :=
  { UUID := 7, LamportTimestamp := 10, EventType := .UpdateEvent,
    ListItemKey := "7:5", TargetListItemKey := "0:0", Line := "x" }

/-- The late-arriving original Add of scenario C5. -/
def c5add : EventLog :=
  { UUID := 7, LamportTimestamp := 3, EventType := .AddEvent,
    ListItemKey := "7:5", TargetListItemKey := "0:0", Line := "" }

/-- C5: delivering Update("7:5", line "x", lamport 10) and then
Add("7:5", line "", lamport 3) leaves exactly one item, keyed "7:5" with
line "x": the Update on the absent item is applied as an Add, and the
later original Add degrades to updates that do not overwrite the newer
line. -/
theorem update_before_add_C5 :
    projList (replayWal [c5update, c5add]) = [("7:5", "x")] := rfl

/-- A two-item log for C9: its match list is the two items in order. -/
def c9wal : List EventLog :=
  [{ UUID := 1, LamportTimestamp := 1, EventType := .AddEvent,
     ListItemKey := "1:1", TargetListItemKey := "0:0", Line := "a" },
   { UUID := 1, LamportTimestamp := 2, EventType := .AddEvent,
     ListItemKey := "1:2", TargetListItemKey := "1:1", Line := "b" }]

/-- C9 (code bug demonstration): `recoverWal` emits its Add events with
zero `UUID` and zero `LamportTimestamp` (the clock is incremented only
for Hide events), so every recovery Add shares the replay dedup key
"0:0"; replaying the recovered log therefore keeps only the first Add and
collapses the two-item match list to a single item, instead of a list
equivalent to the match list. -/
theorem recover_zero_lamport_C9 :
    (checkWalIntegrity c9wal).matchItems.map Item.key = ["1:1", "1:2"] ∧
    ((recoverWal 2 c9wal (checkWalIntegrity c9wal).matchItems).2).map
        (fun e => (e.UUID, e.LamportTimestamp)) = [(0, 0), (0, 0)] ∧
    projList (replayWal (recoverWal 2 c9wal (checkWalIntegrity c9wal).matchItems).2)
      = [("1:2", "b")] :=
  ⟨rfl, rfl, rfl⟩

/-- Modelled from the spec: a varint byte encoding of a natural number
(7 data bits per byte, high bit as continuation), standing in for the
field encodings of Go's `encoding/gob`, which is standard-library code
not in src. §4.8 requires only a self-describing binary encoding that the
matching reader inverts. -/
def encNat (n : Nat) : List Nat :=
  if h : n < 128 then [n] else (n % 128 + 128) :: encNat (n / 128)
termination_by n
decreasing_by exact Nat.div_lt_self (by omega) (by omega)

def decNat : List Nat → Option (Nat × List Nat)
  | [] => none
  | b :: rest =>
      if b < 128 then some (b, rest)
      else
        match decNat rest with
        | some (m, r) => some (b - 128 + 128 * m, r)
        | none => none

theorem decNat_encNat (n : Nat) (r : List Nat) : decNat (encNat n ++ r) = some (n, r) := by
  induction n using Nat.strong_induction_on with
  | _ n ih =>
    rw [encNat]
    split
    · rename_i h
      simp [decNat, h]
    · rename_i h
      have hge : 128 ≤ n := by omega
      simp only [List.cons_append, decNat, List.append_eq]
      rw [if_neg (by omega), ih (n / 128) (Nat.div_lt_self (by omega) (by omega))]
      dsimp only
      have hmod : n % 128 + 128 - 128 + 128 * (n / 128) = n := by omega
      rw [hmod]

/-- Modelled from the spec: sign byte plus magnitude varint for an i64
field. -/
def encInt (i : Int) : List Nat :=
  if i < 0 then 1 :: encNat (-i).toNat else 0 :: encNat i.toNat

def decInt : List Nat → Option (Int × List Nat)
  | [] => none
  | b :: rest =>
      match decNat rest with
      | some (m, r) => some (if b = 1 then -(m : Int) else (m : Int), r)
      | none => none

theorem decInt_encInt (i : Int) (r : List Nat) : decInt (encInt i ++ r) = some (i, r) := by
  unfold encInt
  split <;> rename_i h
  · simp only [List.cons_append, decInt, decNat_encNat]
    have h1 : -(((-i).toNat : Nat) : Int) = i := by omega
    rw [if_pos trivial, h1]
  · simp only [List.cons_append, decInt, decNat_encNat]
    have h1 : ((i.toNat : Nat) : Int) = i := by omega
    rw [if_neg (by omega), h1]

/-- Modelled from the spec: length-prefixed code points for a string
field. -/
def encStr (str : String) : List Nat :=
  encNat str.length ++ str.data.map Char.toNat

def decStr (bs : List Nat) : Option (String × List Nat) :=
  match decNat bs with
  | some (n, r) =>
      if n ≤ r.length then some (String.mk ((r.take n).map Char.ofNat), r.drop n)
      else none
  | none => none

theorem decStr_encStr (str : String) (r : List Nat) :
    decStr (encStr str ++ r) = some (str, r) := by
  unfold encStr decStr
  rw [List.append_assoc, decNat_encNat]
  dsimp only
  have hlen : str.length = (str.data.map Char.toNat).length := by
    rw [List.length_map]
    rfl
  rw [hlen, if_pos (by simp), List.take_left, List.drop_left]
  have hcomp : (Char.ofNat ∘ Char.toNat) = id := funext (fun c => Char.ofNat_toNat c)
  simp only [List.map_map, hcomp, List.map_id]

def encBool (b : Bool) : List Nat :=
  [if b then 1 else 0]

def decBool : List Nat → Option (Bool × List Nat)
  | [] => none
  | b :: rest => some (b = 1, rest)

theorem decBool_encBool (b : Bool) (r : List Nat) :
    decBool (encBool b ++ r) = some (b, r) := by
  cases b <;> rfl

def encOptStr : Option String → List Nat
  | none => 0 :: []
  | some str => 1 :: encStr str

def decOptStr : List Nat → Option (Option String × List Nat)
  | [] => none
  | 0 :: rest => some (none, rest)
  | 1 :: rest =>
      match decStr rest with
      | some (str, r) => some (some str, r)
      | none => none
  | _ :: _ => none

theorem decOptStr_encOptStr (o : Option String) (r : List Nat) :
    decOptStr (encOptStr o ++ r) = some (o, r) := by
  cases o with
  | none => rfl
  | some str =>
    simp only [encOptStr, List.cons_append, decOptStr, decStr_encStr]

def encListBy (enc : α → List Nat) (l : List α) : List Nat :=
  encNat l.length ++ l.foldr (fun a acc => enc a ++ acc) []

def decListAux (dec : List Nat → Option (α × List Nat)) :
    Nat → List Nat → Option (List α × List Nat)
  | 0, bs => some ([], bs)
  | n + 1, bs =>
      match dec bs with
      | some (a, r) =>
          match decListAux dec n r with
          | some (l, r2) => some (a :: l, r2)
          | none => none
      | none => none

def decListBy (dec : List Nat → Option (α × List Nat)) (bs : List Nat) :
    Option (List α × List Nat) :=
  match decNat bs with
  | some (n, r) => decListAux dec n r
  | none => none

theorem decListAux_enc {enc : α → List Nat} {dec : List Nat → Option (α × List Nat)}
    (hrt : ∀ a r, dec (enc a ++ r) = some (a, r)) :
    ∀ (l : List α) (r : List Nat),
      decListAux dec l.length (l.foldr (fun a acc => enc a ++ acc) [] ++ r) = some (l, r) := by
  intro l
  induction l with
  | nil => intro r; rfl
  | cons a t ih =>
    intro r
    simp only [List.length_cons, List.foldr_cons, decListAux, List.append_assoc, hrt, ih]

theorem decListBy_encListBy {enc : α → List Nat} {dec : List Nat → Option (α × List Nat)}
    (hrt : ∀ a r, dec (enc a ++ r) = some (a, r)) (l : List α) (r : List Nat) :
    decListBy dec (encListBy enc l ++ r) = some (l, r) := by
  unfold encListBy decListBy
  rw [List.append_assoc, decNat_encNat]
  exact decListAux_enc hrt l r

def etToNat : EventType → Nat
  | .NullEvent => 0
  | .AddEvent => 1
  | .UpdateEvent => 2
  | .MoveUpEvent => 3
  | .MoveDownEvent => 4
  | .ShowEvent => 5
  | .HideEvent => 6
  | .DeleteEvent => 7

def etOfNat : Nat → EventType
  | 1 => .AddEvent
  | 2 => .UpdateEvent
  | 3 => .MoveUpEvent
  | 4 => .MoveDownEvent
  | 5 => .ShowEvent
  | 6 => .HideEvent
  | 7 => .DeleteEvent
  | _ => .NullEvent

theorem etOfNat_etToNat (et : EventType) : etOfNat (etToNat et) = et := by
  cases et <;> rfl

/-- Modelled from the spec: the schema-6 record for one event — every
persisted `EventLog` field in declaration order (the unexported
`cachedKey` and `emailsMap` fields are not persisted by gob and are not
part of the model). -/
def encEvent (e : EventLog) : List Nat :=
  encNat e.UUID ++ encInt e.LamportTimestamp ++ encNat (etToNat e.EventType) ++
    encStr e.ListItemKey ++ encStr e.TargetListItemKey ++ encStr e.Line ++
    encOptStr e.Note ++ encBool e.Friends.IsProcessed ++ encInt e.Friends.Offset ++
    encListBy encStr e.Friends.Emails

def decEvent (bs : List Nat) : Option (EventLog × List Nat) :=
  match decNat bs with
  | none => none
  | some (uuid, r1) =>
    match decInt r1 with
    | none => none
    | some (lamport, r2) =>
      match decNat r2 with
      | none => none
      | some (et, r3) =>
        match decStr r3 with
        | none => none
        | some (lik, r4) =>
          match decStr r4 with
          | none => none
          | some (tlik, r5) =>
            match decStr r5 with
            | none => none
            | some (line, r6) =>
              match decOptStr r6 with
              | none => none
              | some (note, r7) =>
                match decBool r7 with
                | none => none
                | some (isProcessed, r8) =>
                  match decInt r8 with
                  | none => none
                  | some (offset, r9) =>
                    match decListBy decStr r9 with
                    | none => none
                    | some (emails, r10) =>
                      some ({ UUID := uuid, LamportTimestamp := lamport,
                              EventType := etOfNat et, ListItemKey := lik,
                              TargetListItemKey := tlik, Line := line, Note := note,
                              Friends := { IsProcessed := isProcessed, Offset := offset,
                                           Emails := emails } }, r10)

theorem decEvent_encEvent (e : EventLog) (r : List Nat) :
    decEvent (encEvent e ++ r) = some (e, r) := by
  unfold encEvent decEvent
  simp only [List.append_assoc, decNat_encNat, decInt_encInt, decStr_encStr,
    decOptStr_encOptStr, decBool_encBool, decListBy_encListBy decStr_encStr,
    etOfNat_etToNat]

/-- Modelled from the spec: the gzip frame of §4.8 as an invertible
framing codec (magic bytes and payload length), standing in for Go's
`compress/gzip`, which is standard-library code not in src. -/
def gzipCompress (payload : List Nat) : List Nat :=
  31 :: 139 :: (encNat payload.length ++ payload)

def gzipDecompress (bs : List Nat) : Option (List Nat) :=
  match bs with
  | m1 :: m2 :: rest =>
      if m1 = 31 ∧ m2 = 139 then
        match decNat rest with
        | some (n, r) => if r.length = n then some r else none
        | none => none
      else none
  | _ => none

theorem gzipDecompress_gzipCompress (payload : List Nat) :
    gzipDecompress (gzipCompress payload) = some payload := by
  unfold gzipCompress gzipDecompress
  dsimp only
  rw [if_pos ⟨rfl, rfl⟩,
    show encNat payload.length ++ payload = encNat payload.length ++ (payload ++ []) by simp,
    decNat_encNat]
  simp

/-- `buildByteWal` of the source: the 2-byte little-endian schema id
(latestWalSchemaID = 6, so bytes 6, 0), followed by the gzip stream of
the encoded event list. -/
def buildByteWal (el : List EventLog) : List Nat :=
  6 :: 0 :: gzipCompress (encListBy encEvent el)

/-- `buildFromFile` of the source, restricted to the current schema: an
empty blob reads as an empty log (the source returns `el, nil` on EOF);
otherwise the 2-byte little-endian schema id is read, and for schema 6
the remainder is gunzipped and decoded to the event list. The legacy
schema 1-5 upgrade paths read formats no current writer emits and are
not modelled. -/
def buildFromFile (bs : List Nat) : Except String (List EventLog) :=
  match bs with
  | [] => .ok []
  | b0 :: b1 :: rest =>
      if b0 + 256 * b1 = 6 then
        match gzipDecompress rest with
        | some payload =>
            match decListBy decEvent payload with
            | some (el, []) => .ok el
            | _ => .error "decode failed"
        | none => .error "gunzip failed"
      else .error "unsupported schema"
  | _ => .error "truncated schema id"

/-- C8: encoding any event log to a schema-6 blob and decoding it back
yields the original log on all persisted event fields. -/
theorem codec_round_trip_C8 (el : List EventLog) :
    buildFromFile (buildByteWal el) = .ok el := by
  unfold buildByteWal buildFromFile
  dsimp only
  rw [if_pos (by omega), gzipDecompress_gzipCompress]
  dsimp only
  have h := decListBy_encListBy decEvent_encEvent el []
  rw [List.append_nil] at h
  rw [h]

namespace V0

/-- The `ListItem` struct of the older mutation-API source file
(part_000): `Line`, `Note`, `IsHidden`, `originUUID`, `creationTime`,
the list pointers and the transient match pointers, as heap ids.
`isTombstone` is the tombstone mark of the spec's item model (§3); the
old struct tracked deletion outside the fields shown in part_000. -/
structure Item0 where
  Line : String := ""
  Note : Option String := none
  IsHidden : Bool := false
  originUUID : Nat := 0
  creationTime : Int := 0
  child : Option Nat := none
  parent : Option Nat := none
  matchChild : Option Nat := none
  matchParent : Option Nat := none
  isTombstone : Bool := false
deriving DecidableEq, Repr, Inhabited

/-- `ListItem.Key()` of part_000: `"<originUUID>:<creationTime>"`. -/
def itemKey (it : Item0) : String :=
  toString it.originUUID ++ ":" ++ toString it.creationTime

/-- The `EventLog` struct of the older source file (wall-clock
`UnixNanoTime`, creation-time item identity). -/
structure EventLog0 where
  EventType : EventType := .NullEvent
  UUID : Nat := 0
  TargetUUID : Nat := 0
  UnixNanoTime : Int := 0
  ListItemCreationTime : Int := 0
  TargetListItemCreationTime : Int := 0
  Line : String := ""
  Note : Option String := none
deriving DecidableEq, Repr, Inhabited

/-- Modelled from the spec: one entry of the undo/redo ring of §4.9 (the
`DbEventLogger` type and `addUndoLog` are not in src); it records the
forward/inverse event templates. -/
structure UndoEvent0 where
  eventType : EventType := .NullEvent
  listItemCreationTime : Int := 0
  targetListItemCreationTime : Int := 0
  uuid : Nat := 0
  targetUUID : Nat := 0
  undoLine : String := ""
  undoNote : Option String := none
  redoLine : String := ""
  redoNote : Option String := none
deriving DecidableEq, Repr, Inhabited

/-- The `DBListRepo` state the part_000 mutation API reads and writes:
the projection (heap and root), `listItemTracker`, the event log `r.log`,
the events sent on `eventsChan` (as a list, in send order), the undo log,
the replica id and the current `matchListItems` (as heap ids). -/
structure Repo0 where
  heap : List (Nat × Item0) := []
  nextId : Nat := 0
  root : Option Nat := none
  tracker : List (String × Nat) := []
  log : List EventLog0 := []
  eventsSent : List EventLog0 := []
  undoLog : List UndoEvent0 := []
  undoIdx : Nat := 0
  uuid : Nat := 0
  matchListItems : List Nat := []
  email : String := ""
deriving DecidableEq, Inhabited

def h0Get (h : List (Nat × Item0)) (i : Nat) : Option Item0 :=
  match h with
  | [] => none
  | (j, it) :: t => if i = j then some it else h0Get t i

def h0GetD (h : List (Nat × Item0)) (i : Nat) : Item0 :=
  (h0Get h i).getD {}

def h0Set (h : List (Nat × Item0)) (i : Nat) (it : Item0) : List (Nat × Item0) :=
  match h with
  | [] => [(i, it)]
  | (j, old) :: t => if i = j then (i, it) :: t else (j, old) :: h0Set t i it

def h0Modify (r : Repo0) (i : Nat) (f : Item0 → Item0) : Repo0 :=
  { r with heap := h0Set r.heap i (f (h0GetD r.heap i)) }

def trackerGet0 (r : Repo0) (k : String) : Option Nat :=
  match r.tracker.find? (fun p => p.1 = k) with
  | some p => some p.2
  | none => none

/-- Modelled from the spec: insert a fresh item before `childItem` (§4.3
Add): splice into the doubly-linked list between the target and the
target's parent; become the root when the target is absent. -/
def add0 (r : Repo0) (el : EventLog0) (childItem : Option Nat) : Repo0 × Nat :=
  let nid := r.nextId
  let newItem : Item0 :=
    { Line := el.Line, Note := el.Note, originUUID := el.UUID,
      creationTime := el.ListItemCreationTime, child := childItem }
  let r1 := { r with heap := (nid, newItem) :: r.heap, nextId := nid + 1,
                     tracker := (itemKey newItem, nid) :: r.tracker }
  match childItem with
  | none =>
      let oldRoot := r1.root
      let r2 := { r1 with root := some nid }
      match oldRoot with
      | some orId =>
          let r3 := h0Modify r2 nid (fun it => { it with parent := some orId })
          (h0Modify r3 orId (fun it => { it with child := some nid }), nid)
      | none => (r2, nid)
  | some cid =>
      let cIt := h0GetD r1.heap cid
      let r2 :=
        match cIt.parent with
        | some pid =>
            h0Modify (h0Modify r1 pid (fun it => { it with child := some nid })) nid
              (fun it => { it with parent := some pid })
        | none => r1
      (h0Modify r2 cid (fun it => { it with parent := some nid }), nid)

/-- Modelled from the spec: unlink an item and mark its tombstone (§4.3
Delete), keeping its tracker entry for key resolution. -/
def del0 (r : Repo0) (i : Nat) : Repo0 :=
  let r1 := h0Modify r i (fun it => { it with isTombstone := true })
  let it := h0GetD r1.heap i
  let r2 :=
    match it.child with
    | some c => h0Modify r1 c (fun x => { x with parent := it.parent })
    | none => { r1 with root := it.parent }
  match it.parent with
  | some p => h0Modify r2 p (fun x => { x with child := it.child })
  | none => r2

/-- Modelled from the spec: `CallFunctionForEventLog` of the old engine
(the function is referenced by part_000 but lives in a file not in src).
It applies one event to the projection per §4.3, resolving
`"<uuid>:<creationTime>"` keys through the tracker: Add inserts (or
updates an existing live item), Update updates (or re-adds when absent),
Delete tombstones and unlinks, Move* deletes and re-adds anchored at the
target and is a no-op when the item or the target is absent, Show/Hide
toggle visibility. Tombstoned items count as absent. -/
def CallFunctionForEventLog0 (r : Repo0) (el : EventLog0) : Repo0 × Option Nat :=
  let key := toString el.UUID ++ ":" ++ toString el.ListItemCreationTime
  let targetKey := toString el.TargetUUID ++ ":" ++ toString el.TargetListItemCreationTime
  let item0 := trackerGet0 r key
  let item :=
    match item0 with
    | some i => if (h0GetD r.heap i).isTombstone then none else some i
    | none => none
  let target0 := trackerGet0 r targetKey
  let target :=
    match target0 with
    | some i => if (h0GetD r.heap i).isTombstone then none else some i
    | none => none
  match el.EventType, item with
  | .AddEvent, some i =>
      (h0Modify r i (fun it => { it with Line := el.Line, Note := el.Note }), some i)
  | .AddEvent, none =>
      let p := add0 r el target
      (p.1, some p.2)
  | .UpdateEvent, some i =>
      if el.Line.length > 0 then
        (h0Modify r i (fun it => { it with Line := el.Line, isTombstone := false }), some i)
      else
        (h0Modify r i (fun it => { it with Note := el.Note, isTombstone := false }), some i)
  | .UpdateEvent, none =>
      let p := add0 r el target
      (p.1, some p.2)
  | .DeleteEvent, some i => (del0 r i, some i)
  | .MoveUpEvent, itemOpt =>
      match target with
      | none => (r, itemOpt)
      | some t =>
          match itemOpt with
          | none => (r, none)
          | some i =>
              let isHidden := (h0GetD r.heap i).IsHidden
              let r1 := del0 r i
              let p := add0 r1 el (some t)
              (if isHidden then h0Modify p.1 p.2 (fun it => { it with IsHidden := true })
               else p.1, some p.2)
  | .MoveDownEvent, itemOpt =>
      match target with
      | none => (r, itemOpt)
      | some t =>
          match itemOpt with
          | none => (r, none)
          | some i =>
              let isHidden := (h0GetD r.heap i).IsHidden
              let r1 := del0 r i
              let p := add0 r1 el (some t)
              (if isHidden then h0Modify p.1 p.2 (fun it => { it with IsHidden := true })
               else p.1, some p.2)
  | .ShowEvent, some i => (h0Modify r i (fun it => { it with IsHidden := false }), some i)
  | .HideEvent, some i => (h0Modify r i (fun it => { it with IsHidden := true }), some i)
  | _, _ => (r, item)

/-- `processEventLog` of part_000 (lines 190-220): build the event from
the arguments, send it on `eventsChan`, append it to `r.log`, then apply
it to the projection via `CallFunctionForEventLog`. `now` stands for
`time.Now().UnixNano()`. The note deep-copy made for the websocket copy
does not change the event's content and is not modelled. -/
def processEventLog0 (r : Repo0) (now : Int) (e : EventType)
    (creationTime targetCreationTime : Int) (newLine : String) (newNote : Option String)
    (originUUID targetUUID : Nat) : Repo0 × Option Nat :=
  let el : EventLog0 :=
    { EventType := e, UUID := originUUID, TargetUUID := targetUUID, UnixNanoTime := now,
      ListItemCreationTime := creationTime, TargetListItemCreationTime := targetCreationTime,
      Line := newLine, Note := newNote }
  let r1 := { r with eventsSent := r.eventsSent ++ [el], log := r.log ++ [el] }
  CallFunctionForEventLog0 r1 el

/-- Modelled from the spec: `addUndoLog` (§4.9; not in src) appends a
(forward, inverse) template pair to the undo ring. -/
def addUndoLog0 (r : Repo0) (e : EventType) (ct tct : Int) (u tu : Nat)
    (undoLine : String) (undoNote : Option String)
    (redoLine : String) (redoNote : Option String) : Repo0 :=
  { r with
      undoLog := r.undoLog ++
        [{ eventType := e, listItemCreationTime := ct, targetListItemCreationTime := tct,
           uuid := u, targetUUID := tu, undoLine := undoLine, undoNote := undoNote,
           redoLine := redoLine, redoNote := redoNote }],
      undoIdx := r.undoIdx + 1 }

/-- `Add` of part_000: bounds check `idx < 0 || idx > len(matchListItems)`
(an index equal to the length appends at the end), child info from
`matchListItems[idx-1]`, then emit and apply an AddEvent and record the
undo entry. Returns the new item's key. -/
def Add0 (r : Repo0) (now : Int) (line : String) (note : Option String) (idx : Int) :
    Repo0 × Except String String :=
  if idx < 0 ∨ idx > (r.matchListItems.length : Int) then
    (r, .error "ListItem idx out of bounds")
  else
    let childInfo : Int × Nat :=
      if idx > 0 then
        let cid := r.matchListItems.getD (idx - 1).toNat 0
        ((h0GetD r.heap cid).creationTime, (h0GetD r.heap cid).originUUID)
      else (0, 0)
    let d := processEventLog0 r now .AddEvent now childInfo.1 line note r.uuid childInfo.2
    let r2 := addUndoLog0 d.1 .AddEvent now childInfo.1 r.uuid childInfo.2 line note line note
    (r2, .ok (match d.2 with
              | some i => itemKey (h0GetD r2.heap i)
              | none => ""))

/-- `Update` of part_000: bounds check `idx < 0 || idx >= len`, child
info from the item's `child` pointer, undo entry first (to capture the
old line and note), then emit and apply an UpdateEvent. -/
def Update0 (r : Repo0) (now : Int) (line : String) (note : Option String) (idx : Int) :
    Repo0 × Except String Unit :=
  if idx < 0 ∨ idx ≥ (r.matchListItems.length : Int) then
    (r, .error "ListItem idx out of bounds")
  else
    let iid := r.matchListItems.getD idx.toNat 0
    let listItem := h0GetD r.heap iid
    let childInfo : Int × Nat :=
      match listItem.child with
      | some cid => ((h0GetD r.heap cid).creationTime, (h0GetD r.heap cid).originUUID)
      | none => (0, 0)
    let r1 := addUndoLog0 r .UpdateEvent listItem.creationTime 0 listItem.originUUID
      listItem.originUUID listItem.Line listItem.Note line note
    let d := processEventLog0 r1 now .UpdateEvent listItem.creationTime childInfo.1 line note
      listItem.originUUID childInfo.2
    (d.1, .ok ())

/-- `Delete` of part_000: bounds check `idx < 0 || idx >= len`, emit and
apply a DeleteEvent, undo entry, and return the `matchChild`'s key (empty
when there is none). -/
def Delete0 (r : Repo0) (now : Int) (idx : Int) : Repo0 × Except String String :=
  if idx < 0 ∨ idx ≥ (r.matchListItems.length : Int) then
    (r, .error "ListItem idx out of bounds")
  else
    let iid := r.matchListItems.getD idx.toNat 0
    let listItem := h0GetD r.heap iid
    let targetInfo : Int × Nat :=
      match listItem.child with
      | some cid => ((h0GetD r.heap cid).creationTime, (h0GetD r.heap cid).originUUID)
      | none => (0, 0)
    let d := processEventLog0 r now .DeleteEvent listItem.creationTime 0 "" none
      listItem.originUUID 0
    let r2 := addUndoLog0 d.1 .DeleteEvent listItem.creationTime targetInfo.1
      listItem.originUUID targetInfo.2 listItem.Line listItem.Note listItem.Line listItem.Note
    (r2, .ok (match listItem.matchChild with
              | some mc => itemKey (h0GetD r.heap mc)
              | none => ""))

/-- `MoveUp` of part_000: bounds check `idx < 0 || idx >= len`; the
target is the child of the item's `matchChild` (zero when either is
absent); the MoveUpEvent is emitted and applied unconditionally, and only
the undo entry is guarded by `matchChild != nil && ...creationTime != 0`. -/
def MoveUp0 (r : Repo0) (now : Int) (idx : Int) : Repo0 × Except String Unit :=
  if idx < 0 ∨ idx ≥ (r.matchListItems.length : Int) then
    (r, .error "ListItem idx out of bounds")
  else
    let iid := r.matchListItems.getD idx.toNat 0
    let listItem := h0GetD r.heap iid
    let targetInfo : Int × Nat :=
      match listItem.matchChild with
      | some mc =>
          match (h0GetD r.heap mc).child with
          | some cc => ((h0GetD r.heap cc).creationTime, (h0GetD r.heap cc).originUUID)
          | none => (0, 0)
      | none => (0, 0)
    let d := processEventLog0 r now .MoveUpEvent listItem.creationTime targetInfo.1 "" none
      listItem.originUUID targetInfo.2
    let r2 :=
      match listItem.matchChild with
      | some mc =>
          if (h0GetD r.heap mc).creationTime ≠ 0 then
            addUndoLog0 d.1 .MoveUpEvent listItem.creationTime targetInfo.1
              listItem.originUUID targetInfo.2 "" none "" none
          else d.1
      | none => d.1
    (r2, .ok ())

/-- `MoveDown` of part_000: mirror of `MoveUp` with `matchParent` as the
target anchor. -/
def MoveDown0 (r : Repo0) (now : Int) (idx : Int) : Repo0 × Except String Unit :=
  if idx < 0 ∨ idx ≥ (r.matchListItems.length : Int) then
    (r, .error "ListItem idx out of bounds")
  else
    let iid := r.matchListItems.getD idx.toNat 0
    let listItem := h0GetD r.heap iid
    let targetInfo : Int × Nat :=
      match listItem.matchParent with
      | some mp => ((h0GetD r.heap mp).creationTime, (h0GetD r.heap mp).originUUID)
      | none => (0, 0)
    let d := processEventLog0 r now .MoveDownEvent listItem.creationTime targetInfo.1 "" none
      listItem.originUUID targetInfo.2
    let r2 :=
      match listItem.matchParent with
      | some mp =>
          if (h0GetD r.heap mp).creationTime ≠ 0 then
            addUndoLog0 d.1 .MoveDownEvent listItem.creationTime targetInfo.1
              listItem.originUUID targetInfo.2 "" none "" none
          else d.1
      | none => d.1
    (r2, .ok ())

/-- `ToggleVisibility` of part_000: bounds check `idx < 0 || idx >= len`;
emits a Show event (returning the item's own key) when the item is
hidden, else a Hide event (returning the `matchParent`'s key, falling
back to the `matchChild`'s). -/
def ToggleVisibility0 (r : Repo0) (now : Int) (idx : Int) : Repo0 × Except String String :=
  if idx < 0 ∨ idx ≥ (r.matchListItems.length : Int) then
    (r, .error "ListItem idx out of bounds")
  else
    let iid := r.matchListItems.getD idx.toNat 0
    let listItem := h0GetD r.heap iid
    if listItem.IsHidden then
      let r1 := addUndoLog0 r .ShowEvent listItem.creationTime 0 listItem.originUUID
        listItem.originUUID "" none "" none
      let d := processEventLog0 r1 now .ShowEvent listItem.creationTime 0 "" none
        listItem.originUUID 0
      (d.1, .ok (itemKey listItem))
    else
      let r1 := addUndoLog0 r .HideEvent listItem.creationTime 0 listItem.originUUID
        listItem.originUUID "" none "" none
      let itemKeyOut :=
        match listItem.matchParent with
        | some mp => itemKey (h0GetD r.heap mp)
        | none =>
            match listItem.matchChild with
            | some mc => itemKey (h0GetD r.heap mc)
            | none => ""
      let d := processEventLog0 r1 now .HideEvent listItem.creationTime 0 "" none
        listItem.originUUID 0
      (d.1, .ok itemKeyOut)

/-- A repo whose match list holds exactly one (visible, sole) item. -/
def c6state : Repo0 :=
  { heap := [(0, { Line := "solo", originUUID := 1, creationTime := 7 })],
    nextId := 1, root := some 0, tracker := [("1:7", 0)],
    matchListItems := [0], uuid := 1 }

/-- C6 (counterexample): `MoveUp` (and `MoveDown`) on the sole visible
item DOES emit an event: a Move event with a zero target is appended to
`r.log` and sent on the events channel; only the undo entry is skipped.
The projection (root and heap) is unchanged. -/
theorem move_sole_item_counterexample_C6 :
    (MoveUp0 c6state 99 0).1.log ≠ [] ∧
    (MoveUp0 c6state 99 0).1.eventsSent ≠ [] ∧
    (MoveDown0 c6state 99 0).1.log ≠ [] ∧
    (MoveDown0 c6state 99 0).1.eventsSent ≠ [] :=
  ⟨by decide, by decide, by decide, by decide⟩

/-- C6 (amended): on a match list holding exactly one item with no match
neighbours (the sole visible item), `MoveUp` and `MoveDown` succeed,
leave the projection (root, heap) and the undo log unchanged, and each
appends exactly one Move event with a zero target to the log and to the
events channel. -/
theorem move_sole_item_emits_C6 (r : Repo0) (now : Int) (i : Nat) (it : Item0)
    (hm : r.matchListItems = [i])
    (hit : h0Get r.heap i = some it)
    (hmc : it.matchChild = none)
    (hmp : it.matchParent = none)
    (htgt : trackerGet0 r "0:0" = none) :
    (MoveUp0 r now 0).2 = .ok () ∧
    (MoveUp0 r now 0).1.root = r.root ∧
    (MoveUp0 r now 0).1.heap = r.heap ∧
    (MoveUp0 r now 0).1.undoLog = r.undoLog ∧
    (MoveUp0 r now 0).1.log = r.log ++
      [{ EventType := .MoveUpEvent, UUID := it.originUUID, UnixNanoTime := now,
         ListItemCreationTime := it.creationTime }] ∧
    (MoveUp0 r now 0).1.eventsSent = r.eventsSent ++
      [{ EventType := .MoveUpEvent, UUID := it.originUUID, UnixNanoTime := now,
         ListItemCreationTime := it.creationTime }] ∧
    (MoveDown0 r now 0).2 = .ok () ∧
    (MoveDown0 r now 0).1.root = r.root ∧
    (MoveDown0 r now 0).1.heap = r.heap ∧
    (MoveDown0 r now 0).1.undoLog = r.undoLog ∧
    (MoveDown0 r now 0).1.log = r.log ++
      [{ EventType := .MoveDownEvent, UUID := it.originUUID, UnixNanoTime := now,
         ListItemCreationTime := it.creationTime }] ∧
    (MoveDown0 r now 0).1.eventsSent = r.eventsSent ++
      [{ EventType := .MoveDownEvent, UUID := it.originUUID, UnixNanoTime := now,
         ListItemCreationTime := it.creationTime }] := by
  have hbound : ¬ ((0 : Int) < 0 ∨ (0 : Int) ≥ (r.matchListItems.length : Int)) := by
    rw [hm]; simp
  have hiid : r.matchListItems.getD (0 : Int).toNat 0 = i := by rw [hm]; rfl
  have hitem : h0GetD r.heap i = it := by rw [h0GetD, hit]; rfl
  have h00 : (toString (0 : Nat) ++ ":" ++ toString (0 : Int)) = "0:0" := rfl
  unfold MoveUp0 MoveDown0
  rw [if_neg hbound, if_neg hbound, hiid]
  simp only [hitem, hmc, hmp]
  unfold processEventLog0 CallFunctionForEventLog0
  simp only [trackerGet0] at htgt ⊢
  simp [htgt, h00, hmc, hmp]

/-- Witness for the amended C6 at the concrete one-item repo. -/
theorem move_sole_item_emits_witness_C6 :
    (MoveUp0 c6state 99 0).2 = .ok () ∧
    (MoveUp0 c6state 99 0).1.root = c6state.root ∧
    (MoveUp0 c6state 99 0).1.heap = c6state.heap ∧
    (MoveUp0 c6state 99 0).1.undoLog = c6state.undoLog ∧
    (MoveUp0 c6state 99 0).1.log = c6state.log ++
      [{ EventType := .MoveUpEvent, UUID := 1, UnixNanoTime := 99,
         ListItemCreationTime := 7 }] ∧
    (MoveUp0 c6state 99 0).1.eventsSent = c6state.eventsSent ++
      [{ EventType := .MoveUpEvent, UUID := 1, UnixNanoTime := 99,
         ListItemCreationTime := 7 }] ∧
    (MoveDown0 c6state 99 0).2 = .ok () ∧
    (MoveDown0 c6state 99 0).1.root = c6state.root ∧
    (MoveDown0 c6state 99 0).1.heap = c6state.heap ∧
    (MoveDown0 c6state 99 0).1.undoLog = c6state.undoLog ∧
    (MoveDown0 c6state 99 0).1.log = c6state.log ++
      [{ EventType := .MoveDownEvent, UUID := 1, UnixNanoTime := 99,
         ListItemCreationTime := 7 }] ∧
    (MoveDown0 c6state 99 0).1.eventsSent = c6state.eventsSent ++
      [{ EventType := .MoveDownEvent, UUID := 1, UnixNanoTime := 99,
         ListItemCreationTime := 7 }] :=
  move_sole_item_emits_C6 c6state 99 0
    { Line := "solo", originUUID := 1, creationTime := 7 }
    (by decide) (by decide) (by decide) (by decide) (by decide)

/-- C7: every mutation operation rejects an out-of-range index
(`idx < 0` or `idx ≥ len(matchListItems)`) with an error and returns the
state unchanged: nothing is appended to the log, nothing is sent on the
events channel, and the projection is untouched. -/
theorem out_of_bounds_unchanged_C7 (r : Repo0) (now : Int) (line : String)
    (note : Option String) (idx : Int)
    (h : idx < 0 ∨ idx ≥ (r.matchListItems.length : Int)) :
    (Update0 r now line note idx).1 = r ∧ (Update0 r now line note idx).2.isOk = false ∧
    (Delete0 r now idx).1 = r ∧ (Delete0 r now idx).2.isOk = false ∧
    (MoveUp0 r now idx).1 = r ∧ (MoveUp0 r now idx).2.isOk = false ∧
    (MoveDown0 r now idx).1 = r ∧ (MoveDown0 r now idx).2.isOk = false ∧
    (ToggleVisibility0 r now idx).1 = r ∧ (ToggleVisibility0 r now idx).2.isOk = false := by
  unfold Update0 Delete0 MoveUp0 MoveDown0 ToggleVisibility0
  rw [if_pos h, if_pos h, if_pos h, if_pos h, if_pos h]
  exact ⟨rfl, rfl, rfl, rfl, rfl, rfl, rfl, rfl, rfl, rfl⟩

/-- Witness for C7 at the empty repo and index 0. -/
theorem out_of_bounds_unchanged_witness_C7 :
    (Update0 {} 5 "l" none 0).1 = {} ∧ (Update0 {} 5 "l" none 0).2.isOk = false ∧
    (Delete0 {} 5 0).1 = {} ∧ (Delete0 {} 5 0).2.isOk = false ∧
    (MoveUp0 {} 5 0).1 = {} ∧ (MoveUp0 {} 5 0).2.isOk = false ∧
    (MoveDown0 {} 5 0).1 = {} ∧ (MoveDown0 {} 5 0).2.isOk = false ∧
    (ToggleVisibility0 {} 5 0).1 = {} ∧ (ToggleVisibility0 {} 5 0).2.isOk = false :=
  out_of_bounds_unchanged_C7 {} 5 "l" none 0 (by decide)

/-- C10: the upper bound checks are asymmetric: `Add` accepts an index
equal to the match-list length (append at the end) and rejects only
`idx < 0` or `idx > len`, while `Update`, `Delete`, `MoveUp`, `MoveDown`
and `ToggleVisibility` reject `idx = len`. -/
theorem add_upper_bound_asymmetry_C10 (r : Repo0) (now : Int) (line : String)
    (note : Option String) :
    (Add0 r now line note (r.matchListItems.length : Int)).2.isOk = true ∧
    (Add0 r now line note ((r.matchListItems.length : Int) + 1)).2.isOk = false ∧
    (Update0 r now line note (r.matchListItems.length : Int)).2.isOk = false ∧
    (Delete0 r now (r.matchListItems.length : Int)).2.isOk = false ∧
    (MoveUp0 r now (r.matchListItems.length : Int)).2.isOk = false ∧
    (MoveDown0 r now (r.matchListItems.length : Int)).2.isOk = false ∧
    (ToggleVisibility0 r now (r.matchListItems.length : Int)).2.isOk = false := by
  have hlen : ¬ ((r.matchListItems.length : Int) < 0 ∨
      (r.matchListItems.length : Int) > (r.matchListItems.length : Int)) := by omega
  have hlen2 : ((r.matchListItems.length : Int) + 1 < 0 ∨
      (r.matchListItems.length : Int) + 1 > (r.matchListItems.length : Int)) := by omega
  have hge : ((r.matchListItems.length : Int) < 0 ∨
      (r.matchListItems.length : Int) ≥ (r.matchListItems.length : Int)) := by omega
  unfold Add0 Update0 Delete0 MoveUp0 MoveDown0 ToggleVisibility0
  rw [if_neg hlen, if_pos hlen2, if_pos hge, if_pos hge, if_pos hge, if_pos hge, if_pos hge]
  refine ⟨rfl, rfl, rfl, rfl, rfl, rfl, rfl⟩

end V0

end Fuzzynote
